import Mathlib

set_option maxRecDepth 1000000

set_option maxHeartbeats 1000000

/-!
Verification development for the streaming transcript assembler of the
RAG-FastAPI-LangChain-Assistant frontend (src/frontend/src/pages/Chat.tsx and
the streaming client sendChatMessage shipped alongside it).

The TypeScript source is shallowly embedded: JavaScript strings are modelled
as Lean `String`s (sequences of Unicode scalar values, indexed by characters;
the UTF-16 surrogate-level quirks of JavaScript indexing are out of scope and
never exercised by the code on scalar-clean data), byte streams as
`List Nat` with each byte in 0..255, `JSON.parse` as a fuel-based recursive
descent parser over `List Char` following the JSON grammar accepted by
ECMAScript `JSON.parse` (number lexemes are kept as their source text rather
than converted to IEEE doubles; exact ECMAScript number re-formatting is out
of scope), and the WHATWG `TextDecoder` in `stream: true` mode as an explicit
byte-level state machine including U+FFFD replacement and leading-BOM
stripping.  Callback invocations are reified as an ordered list of events.
-/

/-- A parsed JSON value, as produced by `JSON.parse`.  Object fields are kept
in source order; duplicate keys are resolved on access with the last binding
winning, matching `JSON.parse`.  Numbers keep their raw lexeme. -/
inductive Json where
  | str (s : String)
  | num (raw : String)
  | bool (b : Bool)
  | null
  | arr (elements : List Json)
  | obj (fields : List (String × Json))

namespace Json

/-- Property access `o[k]` on a parsed JSON value: only objects have
properties; the last binding for a duplicate key wins (as in `JSON.parse`). -/
def lookupLast (key : String) : List (String × Json) → Option Json
  | [] => none
  | (k, v) :: rest =>
    match lookupLast key rest with
    | some r => some r
    | none => if k = key then some v else none

def get (j : Json) (key : String) : Option Json :=
  match j with
  | .obj fields => lookupLast key fields
  | _ => none

/-- Whether a JSON number lexeme denotes zero: its mantissa (the part before
any exponent marker) contains no nonzero digit. -/
def numIsZero (raw : String) : Bool :=
  (raw.data.takeWhile (fun c => !(c = 'e' || c = 'E'))).all
    (fun c => !('1' ≤ c && c ≤ '9'))

/-- JavaScript truthiness of a parsed JSON value. -/
def truthy : Json → Bool
  | .str s => !(s = "")
  | .num raw => !(numIsZero raw)
  | .bool b => b
  | .null => false
  | .arr _ => true
  | .obj _ => true

end Json

mutual
/-- JavaScript `String(v)` coercion of a parsed JSON value.  Arrays stringify
as their elements joined by commas with `null` elements becoming empty, plain
objects as `[object Object]`; number lexemes are passed through (ECMAScript
number normalisation is out of scope). -/
def jsToString : Json → String
  | .str s => s
  | .num raw => raw
  | .bool true => "true"
  | .bool false => "false"
  | .null => "null"
  | .arr xs => jsJoinComma xs
  | .obj _ => "[object Object]"

def jsJoinComma : List Json → String
  | [] => ""
  | [x] => jsElemString x
  | x :: rest => jsElemString x ++ "," ++ jsJoinComma rest

def jsElemString : Json → String
  | .null => ""
  | j => jsToString j
end

/-- JavaScript coercion of a possibly-`undefined` value to a string, as done
by `+=` string concatenation: `undefined` becomes `"undefined"`. -/
def jsOptToString : Option Json → String
  | none => "undefined"
  | some j => jsToString j

/-- The ECMAScript `String.prototype.trim` whitespace set (WhiteSpace and
LineTerminator code points). -/
def jsWhitespace (c : Char) : Bool :=
  (0x9 ≤ c.toNat && c.toNat ≤ 0xD) || c.toNat = 0x20 || c.toNat = 0xA0 ||
  c.toNat = 0x1680 || (0x2000 ≤ c.toNat && c.toNat ≤ 0x200A) ||
  c.toNat = 0x202F || c.toNat = 0x205F || c.toNat = 0x3000 ||
  c.toNat = 0x2028 || c.toNat = 0x2029 || c.toNat = 0xFEFF

/-- `s.trim()` of JavaScript. -/
def jsTrim (s : List Char) : List Char :=
  ((s.dropWhile jsWhitespace).reverse.dropWhile jsWhitespace).reverse

/-- Truthiness of `s.trim()`: the string has some non-whitespace character. -/
def jsTrimNonempty (s : List Char) : Bool :=
  s.any (fun c => !jsWhitespace c)

/- ## JSON.parse -/

/-- JSON insignificant whitespace. -/
def jsonWs (c : Char) : Bool :=
  c = ' ' || c = '\t' || c = '\n' || c = '\r'

def skipWs (s : List Char) : List Char :=
  s.dropWhile jsonWs

def hexDigit (c : Char) : Option Nat :=
  let n := c.toNat
  if 48 ≤ n && n ≤ 57 then some (n - 48)
  else if 97 ≤ n && n ≤ 102 then some (n - 87)
  else if 65 ≤ n && n ≤ 70 then some (n - 55)
  else none

def isJsonDigit (c : Char) : Bool := '0' ≤ c && c ≤ '9'

/-- Parse the digits/fraction/exponent tail of a JSON number starting at the
integer part (sign already consumed).  Returns the consumed lexeme. -/
def parseNumberBody (s : List Char) : Option (List Char × List Char) :=
  match s with
  | [] => none
  | c :: rest =>
    if c = '0' then some ([c], rest)
    else if isJsonDigit c then
      let digits := rest.takeWhile isJsonDigit
      some (c :: digits, rest.drop digits.length)
    else none

/-- Parse an optional `.digits` fragment. -/
def parseFrac (s : List Char) : Option (List Char × List Char) :=
  match s with
  | '.' :: rest =>
    let digits := rest.takeWhile isJsonDigit
    if digits.isEmpty then none
    else some ('.' :: digits, rest.drop digits.length)
  | _ => some ([], s)

/-- Parse an optional exponent fragment. -/
def parseExp (s : List Char) : Option (List Char × List Char) :=
  match s with
  | c :: rest =>
    if c = 'e' || c = 'E' then
      match rest with
      | d :: rest2 =>
        if d = '+' || d = '-' then
          let digits := rest2.takeWhile isJsonDigit
          if digits.isEmpty then none
          else some (c :: d :: digits, rest2.drop digits.length)
        else
          let digits := rest.takeWhile isJsonDigit
          if digits.isEmpty then none
          else some (c :: digits, rest.drop digits.length)
      | [] => none
    else some ([], s)
  | [] => some ([], s)

/-- Parse a complete JSON number (with optional leading minus), returning its
raw lexeme. -/
def parseNumber (s : List Char) : Option (List Char × List Char) :=
  let (sign, s1) := match s with
    | '-' :: rest => ([('-' : Char)], rest)
    | _ => ([], s)
  match parseNumberBody s1 with
  | none => none
  | some (ip, s2) =>
    match parseFrac s2 with
    | none => none
    | some (fp, s3) =>
      match parseExp s3 with
      | none => none
      | some (ep, s4) => some (sign ++ ip ++ fp ++ ep, s4)

/-- Read four hex digits as a code unit. -/
def parseHex4 (s : List Char) : Option (Nat × List Char) :=
  match s with
  | a :: b :: c :: d :: rest =>
    match hexDigit a, hexDigit b, hexDigit c, hexDigit d with
    | some x, some y, some z, some w => some (((x * 16 + y) * 16 + z) * 16 + w, rest)
    | _, _, _, _ => none
  | _ => none

/-- Parse the body of a JSON string after the opening quote, handling escape
sequences as `JSON.parse` does.  A `\uXXXX` high surrogate followed by a
`\uXXXX` low surrogate is combined into one supplementary character; a lone
surrogate escape (unrepresentable as a Lean `Char`) degrades to the escaped
code value through `Char.ofNat`, which is the one place the scalar-value
string model cannot mirror JavaScript exactly. -/
def parseStringBody (fuel : Nat) (s : List Char) : Option (List Char × List Char) :=
  match fuel with
  | 0 => none
  | fuel + 1 =>
    match s with
    | [] => none
    | c :: rest =>
      if c = '"' then some ([], rest)
      else if c = '\\' then
        match rest with
        | [] => none
        | e :: rest2 =>
          let simple : Option Char :=
            if e = '"' then some '"'
            else if e = '\\' then some '\\'
            else if e = '/' then some '/'
            else if e = 'b' then some '\x08'
            else if e = 'f' then some '\x0c'
            else if e = 'n' then some '\n'
            else if e = 'r' then some '\r'
            else if e = 't' then some '\t'
            else none
          match simple with
          | some ch =>
            match parseStringBody fuel rest2 with
            | some (out, r) => some (ch :: out, r)
            | none => none
          | none =>
            if e = 'u' then
              match parseHex4 rest2 with
              | none => none
              | some (n, rest3) =>
                if 0xD800 ≤ n && n ≤ 0xDBFF then
                  match rest3 with
                  | '\\' :: 'u' :: rest4 =>
                    match parseHex4 rest4 with
                    | some (m, rest5) =>
                      if 0xDC00 ≤ m && m ≤ 0xDFFF then
                        let cp := 0x10000 + (n - 0xD800) * 0x400 + (m - 0xDC00)
                        match parseStringBody fuel rest5 with
                        | some (out, r) => some (Char.ofNat cp :: out, r)
                        | none => none
                      else
                        match parseStringBody fuel rest5 with
                        | some (out, r) => some (Char.ofNat n :: Char.ofNat m :: out, r)
                        | none => none
                    | none =>
                      match parseStringBody fuel rest3 with
                      | some (out, r) => some (Char.ofNat n :: out, r)
                      | none => none
                  | _ =>
                    match parseStringBody fuel rest3 with
                    | some (out, r) => some (Char.ofNat n :: out, r)
                    | none => none
                else
                  match parseStringBody fuel rest3 with
                  | some (out, r) => some (Char.ofNat n :: out, r)
                  | none => none
            else none
      else if c.toNat < 0x20 then none
      else
        match parseStringBody fuel rest with
        | some (out, r) => some (c :: out, r)
        | none => none

mutual
/-- Parse one JSON value (leading whitespace allowed). -/
def parseValue (fuel : Nat) (s : List Char) : Option (Json × List Char) :=
  match fuel with
  | 0 => none
  | fuel + 1 =>
    match skipWs s with
    | [] => none
    | c :: rest =>
      if c = '"' then
        match parseStringBody (rest.length + 1) rest with
        | some (out, r) => some (.str (String.mk out), r)
        | none => none
      else if c = '\x7b' then parseObjectBody fuel rest
      else if c = '[' then parseArrayBody fuel rest
      else if c = 't' then
        match rest with
        | 'r' :: 'u' :: 'e' :: r => some (.bool true, r)
        | _ => none
      else if c = 'f' then
        match rest with
        | 'a' :: 'l' :: 's' :: 'e' :: r => some (.bool false, r)
        | _ => none
      else if c = 'n' then
        match rest with
        | 'u' :: 'l' :: 'l' :: r => some (.null, r)
        | _ => none
      else
        match parseNumber (c :: rest) with
        | some (raw, r) => some (.num (String.mk raw), r)
        | none => none

/-- Parse an object body after the opening brace. -/
def parseObjectBody (fuel : Nat) (s : List Char) : Option (Json × List Char) :=
  match fuel with
  | 0 => none
  | fuel + 1 =>
    match skipWs s with
    | '\x7d' :: rest => some (.obj [], rest)
    | _ => parseObjectFields fuel s []

/-- Parse the fields of a nonempty object body. -/
def parseObjectFields (fuel : Nat) (s : List Char) (acc : List (String × Json)) :
    Option (Json × List Char) :=
  match fuel with
  | 0 => none
  | fuel + 1 =>
    match skipWs s with
    | '"' :: rest =>
      match parseStringBody (rest.length + 1) rest with
      | none => none
      | some (key, r1) =>
        match skipWs r1 with
        | ':' :: r2 =>
          match parseValue fuel r2 with
          | none => none
          | some (v, r3) =>
            let acc := acc ++ [(String.mk key, v)]
            match skipWs r3 with
            | ',' :: r4 => parseObjectFields fuel r4 acc
            | '\x7d' :: r4 => some (.obj acc, r4)
            | _ => none
        | _ => none
    | _ => none

/-- Parse an array body after the opening bracket. -/
def parseArrayBody (fuel : Nat) (s : List Char) : Option (Json × List Char) :=
  match fuel with
  | 0 => none
  | fuel + 1 =>
    match skipWs s with
    | ']' :: rest => some (.arr [], rest)
    | _ => parseArrayElems fuel s []

/-- Parse the elements of a nonempty array body. -/
def parseArrayElems (fuel : Nat) (s : List Char) (acc : List Json) :
    Option (Json × List Char) :=
  match fuel with
  | 0 => none
  | fuel + 1 =>
    match parseValue fuel s with
    | none => none
    | some (v, r1) =>
      let acc := acc ++ [v]
      match skipWs r1 with
      | ',' :: r2 => parseArrayElems fuel r2 acc
      | ']' :: r2 => some (.arr acc, r2)
      | _ => none
end

/-- `JSON.parse` over one framed line: parse one value and require only
trailing whitespace after it. -/
def jsonParse (line : List Char) : Option Json :=
  match parseValue (line.length * 2 + 8) line with
  | some (v, rest) => if skipWs rest = [] then some v else none
  | none => none

/- ## TextDecoder: WHATWG streaming UTF-8 decoder -/

/-- Decoder state of the WHATWG UTF-8 decoder (TextDecoder in streaming
mode): the partial code point, how many continuation bytes are still needed,
the admissible range for the next byte, and whether a leading U+FEFF still
has to be stripped (the default `ignoreBOM: false` behaviour). -/
structure DecState where
  codepoint : Nat
  needed : Nat
  lower : Nat
  upper : Nat
  bomPending : Bool

def DecState.init : DecState :=
  ⟨0, 0, 0x80, 0xBF, true⟩

/-- Process one byte from the ground state (no continuation pending). -/
def utf8Start (bom : Bool) (b : Nat) : DecState × List Nat :=
  if b ≤ 0x7F then (⟨0, 0, 0x80, 0xBF, bom⟩, [b])
  else if 0xC2 ≤ b && b ≤ 0xDF then (⟨b % 32, 1, 0x80, 0xBF, bom⟩, [])
  else if b = 0xE0 then (⟨b % 16, 2, 0xA0, 0xBF, bom⟩, [])
  else if b = 0xED then (⟨b % 16, 2, 0x80, 0x9F, bom⟩, [])
  else if 0xE1 ≤ b && b ≤ 0xEF then (⟨b % 16, 2, 0x80, 0xBF, bom⟩, [])
  else if b = 0xF0 then (⟨b % 8, 3, 0x90, 0xBF, bom⟩, [])
  else if b = 0xF4 then (⟨b % 8, 3, 0x80, 0x8F, bom⟩, [])
  else if 0xF1 ≤ b && b ≤ 0xF3 then (⟨b % 8, 3, 0x80, 0xBF, bom⟩, [])
  else (⟨0, 0, 0x80, 0xBF, bom⟩, [0xFFFD])

/-- Process one byte: either a continuation of a pending sequence (an invalid
continuation emits U+FFFD and reprocesses the byte from the ground state, as
the WHATWG algorithm restores it to the stream) or a fresh start. -/
def utf8Byte (s : DecState) (b : Nat) : DecState × List Nat :=
  if s.needed = 0 then utf8Start s.bomPending b
  else if s.lower ≤ b && b ≤ s.upper then
    let cp := s.codepoint * 64 + b % 64
    if s.needed = 1 then (⟨0, 0, 0x80, 0xBF, s.bomPending⟩, [cp])
    else (⟨cp, s.needed - 1, 0x80, 0xBF, s.bomPending⟩, [])
  else
    let (s2, out) := utf8Start s.bomPending b
    (s2, 0xFFFD :: out)

/-- Apply the one-shot BOM strip to a freshly emitted run of code points:
while the very first emitted code point of the stream is U+FEFF it is
dropped. -/
def applyBom (s : DecState) (out : List Nat) : DecState × List Nat :=
  match out with
  | [] => (s, [])
  | c :: rest =>
    if s.bomPending then
      if c = 0xFEFF then ({ s with bomPending := false }, rest)
      else ({ s with bomPending := false }, c :: rest)
    else (s, c :: rest)

/-- One byte of the full decoder, producing characters. -/
def decodeByte (s : DecState) (b : Nat) : DecState × List Char :=
  let (s1, out) := utf8Byte s b
  let (s2, out2) := applyBom s1 out
  (s2, out2.map Char.ofNat)

/-- Decode a chunk of bytes, threading the decoder state: the model of
`decoder.decode(value, {stream: true})`. -/
def decodeChunk (s : DecState) (bs : List Nat) : DecState × List Char :=
  bs.foldl (fun p b =>
    let q := decodeByte p.1 b
    (q.1, p.2 ++ q.2)) (s, [])

/- ## Line framing -/

/-- Split a character sequence at every newline, JavaScript
`str.split('\n')`: always returns at least one (possibly empty) part. -/
def splitNl : List Char → List (List Char)
  | [] => [[]]
  | c :: cs =>
    if c = '\n' then [] :: splitNl cs
    else
      match splitNl cs with
      | [] => [[c]]
      | l :: ls => (c :: l) :: ls

/-- One round of the framing loop body of `sendChatMessage`: append the
decoded text to the carried buffer, split on newlines, emit every complete
line and keep the trailing partial line (`buf = lines.pop()`). -/
def feedLines (st : List (List Char) × List Char) (t : List Char) :
    List (List Char) × List Char :=
  let parts := splitNl (st.2 ++ t)
  (st.1 ++ parts.dropLast, parts.getLastD [])

/- ## Event dispatch (the switch on obj.type) -/

/-- One callback invocation of the streaming client, in order of occurrence.
Payload fields carry the raw JavaScript values handed to the handler
(`none` models `undefined` for a missing property). -/
inductive CbEvent where
  | sessionId (content : Option Json)
  | aiChunk (content : Option Json)
  | toolOutput (content : Option Json) (toolName : Json)
  | complete

/-- The `obj.tool_name || 'tool'` argument: the raw property value if truthy,
else the string `tool`. -/
def toolNameOf (obj : Json) : Json :=
  match obj.get "tool_name" with
  | some v => if v.truthy then v else .str "tool"
  | none => .str "tool"

/-- Dispatch one parsed line: the `switch (obj.type)` of `sendChatMessage`.
Only a string-valued `type` matching one of the five known tags does
anything; `tool_start` and `tool_done` are recognised but produce no
callback; anything else is a no-op. -/
def dispatchObj (obj : Json) : List CbEvent :=
  match obj.get "type" with
  | some (.str t) =>
    if t = "session" then [.sessionId (obj.get "content")]
    else if t = "ai" then [.aiChunk (obj.get "content")]
    else if t = "tool_start" then []
    else if t = "tool" then [.toolOutput (obj.get "content") (toolNameOf obj)]
    else if t = "tool_done" then []
    else []
  | _ => []

/-- Process one framed line: skip whitespace-only lines
(`if (!line.trim()) continue`), drop lines that fail to parse (the
`try`/`catch` around `JSON.parse`), otherwise dispatch. -/
def dispatchLine (line : List Char) : List CbEvent :=
  if jsTrimNonempty line then
    match jsonParse line with
    | none => []
    | some obj => dispatchObj obj
  else []

/- ## sendChatMessage -/

/-- The response body as observed through `resp.body.getReader()`: the chunks
delivered by successive `read()` calls, and whether the stream ends with a
rejected read (mid-stream network failure) instead of `done`. -/
structure StreamBody where
  chunks : List (List Nat)
  aborted : Bool

/-- The `fetch` response: the code reads only `resp.body`; the status is
carried to show it is never consulted. -/
structure FetchResponse where
  status : Nat
  body : Option StreamBody

/-- Outcome of a `sendChatMessage` call: ran to completion, or threw (a
rejected `fetch`, a missing body, or a rejected mid-stream read), which the
caller observes as a rejected promise. -/
inductive SendOutcome where
  | completed
  | threw

/-- The read loop of `sendChatMessage` over the delivered chunks: thread the
decoder state, the line buffer, and the emitted lines. -/
def framePipe (body : List (List Nat)) : DecState × (List (List Char) × List Char) :=
  body.foldl (fun st chunk =>
    let d := decodeChunk st.1 chunk
    (d.1, feedLines st.2 d.2)) (DecState.init, ([], []))

/-- The residual-buffer handling after the read loop: `if (buf.trim())` parse
it and dispatch only an `ai`-typed record. -/
def residualEvents (buf : List Char) : List CbEvent :=
  if jsTrimNonempty buf then
    match jsonParse buf with
    | none => []
    | some obj =>
      match obj.get "type" with
      | some (.str t) => if t = "ai" then [.aiChunk (obj.get "content")] else []
      | _ => []
  else []

/-- The full `sendChatMessage`: returns the ordered list of callback
invocations it performs and whether it returned normally or threw.  A
connection error or missing body throws before any callback; a mid-stream
abort throws after the callbacks of the already-framed lines; a normal end
of stream dispatches the framed lines, then the residual buffer, then
`onComplete`.  The response status is never examined. -/
def sendChatMessage (fetchResult : Except Unit FetchResponse) :
    List CbEvent × SendOutcome :=
  match fetchResult with
  | .error _ => ([], .threw)
  | .ok resp =>
    match resp.body with
    | none => ([], .threw)
    | some body =>
      let st := framePipe body.chunks
      let evs := st.2.1.flatMap dispatchLine
      if body.aborted then (evs, .threw)
      else (evs ++ residualEvents st.2.2 ++ [.complete], .completed)

/- ## Chat component state (Chat.tsx) -/

/-- The role tag of a transcript message (the `type` field of `Message`). -/
inductive MsgType where
  | user
  | ai
  deriving DecidableEq

/-- One recorded tool call on an assistant message: the raw values handed to
`onToolOutput` and the `insertPosition` anchor captured from the accumulated
text length. -/
structure ToolCallRec where
  toolName : Json
  toolOutput : Option Json
  insertPosition : Nat

/-- A transcript message as kept in the `messages` state: user messages are
created without a `toolCalls` field (`none`), assistant messages with an
empty list. -/
structure Message where
  msgType : MsgType
  content : String
  timestamp : Nat
  toolCalls : Option (List ToolCallRec)

/-- The Chat component state touched by the streaming logic: the message
list, the input box, the session id as stored by `setSessionId` (`none` for
the initial `null` and for a stored `undefined`), the `loading` state, the
`processingRef` single-flight guard, and the `aiBufferRef` text
accumulator.  The sidebar list (`allConvs`, refreshed by the network call
`loadAll`) is outside the streaming core and not tracked. -/
structure ChatState where
  messages : List Message
  input : String
  sessionId : Option Json
  loading : Bool
  processing : Bool
  aiBuffer : String

/-- The `onAIChunk` message update: copy the array and, when the last message
exists and is an assistant message, overwrite its `content` with the
accumulator. -/
def setLastContent (msgs : List Message) (text : String) : List Message :=
  match msgs.getLast? with
  | some last =>
    if last.msgType = .ai then msgs.dropLast ++ [{ last with content := text }]
    else msgs
  | none => msgs

/-- The `onToolOutput` message update: when the last message exists and is an
assistant message, append the tool call to its (possibly still absent) list. -/
def pushToolCall (msgs : List Message) (tc : ToolCallRec) : List Message :=
  match msgs.getLast? with
  | some last =>
    if last.msgType = .ai then
      msgs.dropLast ++ [{ last with toolCalls := some ((last.toolCalls.getD []) ++ [tc]) }]
    else msgs
  | none => msgs

/-- The handler attached to one callback invocation, exactly as installed by
`handleSend`: `onSessionId` stores the id, `onAIChunk` appends to the
accumulator (JavaScript `+=` coercion) and mirrors it into the last
assistant message, `onToolOutput` captures the current accumulator length as
the anchor, `onComplete` clears `loading`, the guard and the accumulator
(and refreshes the sidebar list, which is not tracked here). -/
def stepEvent (st : ChatState) : CbEvent → ChatState
  | .sessionId c => { st with sessionId := c }
  | .aiChunk c =>
    let buf := st.aiBuffer ++ jsOptToString c
    { st with aiBuffer := buf, messages := setLastContent st.messages buf }
  | .toolOutput c name =>
    { st with messages := pushToolCall st.messages ⟨name, c, st.aiBuffer.length⟩ }
  | .complete => { st with loading := false, processing := false, aiBuffer := "" }

def runEvents (st : ChatState) (evs : List CbEvent) : ChatState :=
  evs.foldl stepEvent st

/-- Outcome of a `handleSend` call as observed by the component. -/
inductive HandleOutcome where
  | rejected
  | finished
  | caught
  deriving DecidableEq

/-- The synchronous prefix of `handleSend` up to the request: the guard
`if (!q || loading || processingRef.current) return;` rejects with no state
change and no request; otherwise the guard and `loading` are set, the user
message and the empty assistant placeholder are pushed, and the accumulator
and input box are cleared.  `now` stands for `Date.now()`. -/
def handleSendBegin (st : ChatState) (now : Nat) : Option ChatState :=
  let q := String.mk (jsTrim st.input.data)
  if q = "" || st.loading || st.processing then none
  else some { st with
    processing := true
    loading := true
    messages := st.messages ++
      [⟨.user, q, now, none⟩, ⟨.ai, "", now, some []⟩]
    aiBuffer := ""
    input := "" }

/-- The whole `handleSend`: the guard, then one `sendChatMessage` whose
callback invocations mutate the state in order; a thrown transport error is
absorbed by the `catch` block, which clears `loading` and the guard (and
leaves everything else as the stream left it).  The `onError` handler passed
in the handler object is dead code: `sendChatMessage` never invokes it. -/
def handleSend (st : ChatState) (now : Nat) (fetchResult : Except Unit FetchResponse) :
    ChatState × HandleOutcome :=
  match handleSendBegin st now with
  | none => (st, .rejected)
  | some st1 =>
    let r := sendChatMessage fetchResult
    let st2 := runEvents st1 r.1
    match r.2 with
    | .completed => (st2, .finished)
    | .threw => ({ st2 with loading := false, processing := false }, .caught)

/-- `startNew`: clear the transcript, the session id, the accumulator and
the guard.  `loading` is not touched, and no in-flight stream is cancelled. -/
def startNew (st : ChatState) : ChatState :=
  { st with messages := [], sessionId := none, aiBuffer := "", processing := false }

/-- One stored conversation row as returned by the history API. -/
structure ConversationItem where
  session_id : String
  user_message : String
  ai_message : String
  timestamp : Option Int
  deriving DecidableEq

/-- `loadSession`: rebuild the message list from the fetched rows (one user
and one assistant message per row) and store the session id.  Neither the
accumulator nor the guard nor `loading` is touched. -/
def sessionMessages (convs : List ConversationItem) (now : Nat) : List Message :=
  convs.flatMap (fun c =>
    [⟨.user, c.user_message, now, none⟩, ⟨.ai, c.ai_message, now, some []⟩])

def loadSession (st : ChatState) (sid : String) (convs : List ConversationItem)
    (now : Nat) : ChatState :=
  { st with messages := sessionMessages convs now, sessionId := some (.str sid) }

/- ## ConversationIndex: uniqueSessions -/

/-- The sort key `a.timestamp || 0`. -/
def timeOf (c : ConversationItem) : Int :=
  c.timestamp.getD 0

/-- First pass of `uniqueSessions`: the `Map` keyed by `session_id` filled
with `if (!map.has(...)) map.set(...)`, read back in insertion order — i.e.
the first-encountered row per session id, in arrival order. -/
def dedupeFirst (seen : List String) : List ConversationItem → List ConversationItem
  | [] => []
  | c :: rest =>
    if c.session_id ∈ seen then dedupeFirst seen rest
    else c :: dedupeFirst (c.session_id :: seen) rest

/-- `uniqueSessions`: dedupe, then sort by `(a, b) => timeB - timeA`.
`Array.prototype.sort` is stable and, for this consistent comparator, its
result is the unique stable order — realised here by insertion sort with
the relation `timeOf b ≤ timeOf a` (comparator value at most zero). -/
def uniqueSessions (allConvs : List ConversationItem) : List ConversationItem :=
  (dedupeFirst [] allConvs).insertionSort (fun a b => timeOf b ≤ timeOf a)

/- ## SegmentInterleaver: the assistant-message rendering walk -/

/-- One rendered segment of an assistant message. -/
inductive Segment where
  | text (value : String)
  | toolCard (name : Json) (payload : Option Json)

/-- JavaScript `s.substring(a, b)`: clamp both indices to the string length
and swap them when out of order. -/
def jsSubstring (s : String) (a b : Nat) : String :=
  let a2 := min a s.length
  let b2 := min b s.length
  String.mk (((s.data).drop (min a2 b2)).take (max a2 b2 - min a2 b2))

/-- JavaScript `s.substring(a)`. -/
def jsSubstringFrom (s : String) (a : Nat) : String :=
  jsSubstring s a s.length

/-- The rendering walk over the anchor-sorted tool calls: before each tool
card, emit the text between the previous cut point and the anchor unless it
is empty or whitespace-only; after the last card, emit the remaining suffix
under the same test. -/
def interleaveGo (content : String) : List ToolCallRec → Nat → List Segment
  | [], last =>
    if last < content.length then
      let tail := jsSubstringFrom content last
      if jsTrimNonempty tail.data then [.text tail] else []
    else []
  | call :: rest, last =>
    let pre : List Segment :=
      if last < call.insertPosition then
        let seg := jsSubstring content last call.insertPosition
        if jsTrimNonempty seg.data then [.text seg] else []
      else []
    pre ++ Segment.toolCard call.toolName call.toolOutput ::
      interleaveGo content rest call.insertPosition

/-- The assistant-message rendering of Chat.tsx: with no recorded tool calls
the whole content is one text segment (with no whitespace test); otherwise
sort the calls by anchor (stable) and walk. -/
def interleave (content : String) (toolCalls : List ToolCallRec) : List Segment :=
  if toolCalls.isEmpty then [.text content]
  else
    interleaveGo content
      (toolCalls.insertionSort (fun a b => a.insertPosition ≤ b.insertPosition)) 0

/- ## Derived definitions used by the claim statements -/

/-- The complete lines framed by the read loop (the segments dispatched
inside the loop, excluding the residual buffer). -/
def framedLines (chunks : List (List Nat)) : List (List Char) :=
  (framePipe chunks).2.1

/-- The residual buffer left after the read loop. -/
def residualBuf (chunks : List (List Nat)) : List Char :=
  (framePipe chunks).2.2

/-- UTF-8 encoding of one scalar value, used to build concrete byte inputs. -/
def utf8EncodeChar (c : Char) : List Nat :=
  let n := c.toNat
  if n < 0x80 then [n]
  else if n < 0x800 then [0xC0 + n / 64, 0x80 + n % 64]
  else if n < 0x10000 then [0xE0 + n / 4096, 0x80 + n / 64 % 64, 0x80 + n % 64]
  else [0xF0 + n / 262144, 0x80 + n / 4096 % 64, 0x80 + n / 64 % 64, 0x80 + n % 64]

def utf8Encode (s : String) : List Nat :=
  s.data.flatMap utf8EncodeChar

def isComplete : CbEvent → Bool
  | .complete => true
  | _ => false

def isSessionEvt : CbEvent → Bool
  | .sessionId _ => true
  | _ => false

/-- The text delta contributed by one callback event to the accumulator. -/
def aiDeltaOf : CbEvent → Option String
  | .aiChunk c => some (jsOptToString c)
  | _ => none

/-- The `content` values stored by the session events, in order. -/
def sessionValues (evs : List CbEvent) : List (Option Json) :=
  evs.filterMap (fun e => match e with | .sessionId c => some c | _ => none)

/-- Spec-side description of the text delta a framed line should contribute:
the coerced `content` of a line that decodes to an `ai` record, nothing
otherwise. -/
def lineAiDelta (line : List Char) : Option String :=
  if jsTrimNonempty line then
    match jsonParse line with
    | some obj =>
      match obj.get "type" with
      | some (.str t) =>
        if t = "ai" then some (jsOptToString (obj.get "content")) else none
      | _ => none
    | none => none
  else none

/-- Whether a framed line decodes to a `session` record. -/
def isSessionLine (line : List Char) : Bool :=
  if jsTrimNonempty line then
    match jsonParse line with
    | some obj =>
      match obj.get "type" with
      | some (.str t) => t = "session"
      | _ => false
    | none => false
  else false

/-- Whether a decoded object carries one of the five recognised type tags. -/
def recognizedTag (obj : Json) : Bool :=
  match obj.get "type" with
  | some (.str t) =>
    t = "session" || t = "ai" || t = "tool_start" || t = "tool" || t = "tool_done"
  | _ => false

/-- The text values of the text segments, in order. -/
def textSegs (segs : List Segment) : List String :=
  segs.filterMap (fun s => match s with | .text v => some v | _ => none)

/-- The (name, payload) pairs of the tool segments, in order. -/
def toolSegs (segs : List Segment) : List (Json × Option Json) :=
  segs.filterMap (fun s => match s with | .toolCard n p => some (n, p) | _ => none)

/-- Spec-side wording for the claim on `interleave`: the contribution of
the gap between two consecutive cut points, omitted when it consists only
of whitespace (an empty or inverted gap contributes nothing). -/
def elidedPiece (content : String) (l r : Nat) : String :=
  if l < r then
    let seg := jsSubstring content l r
    if jsTrimNonempty seg.data then seg else ""
  else ""

/-- Spec-side wording for the claim on `interleave`: the original text with
whitespace-only gaps between consecutive cut points elided, the cut points
being the start of the text, the anchors in sorted order, and the end of
the text. -/
def specTextConcat (content : String) : List ToolCallRec → Nat → String
  | [], last => elidedPiece content last content.length
  | call :: rest, last =>
    elidedPiece content last call.insertPosition ++
      specTextConcat content rest call.insertPosition

/-- Concatenation of a list of strings. -/
def joinAll (l : List String) : String :=
  l.foldr (fun a b => a ++ b) ""

/- ## Concrete inputs for counterexamples and witnesses -/

/-- A fresh component state with a pending input. -/
def chatInit : ChatState :=
  ⟨[], "hi", none, false, false, ""⟩

/-- First chunk of the two-chunk scenario: an `ai` record cut mid-string. -/
def scChunk1 : String := "\x7b\"type\":\"ai\",\"content\":\"Hel"

/-- Second chunk of the two-chunk scenario: the rest of the first record, a
`tool` record and a final `ai` record, newline-terminated. -/
def scChunk2 : String :=
  "lo\"\x7d\n\x7b\"type\":\"tool\",\"content\":\"\x7b\\\"x\\\":1\x7d\",\"tool_name\":\"t1\"\x7d\n\x7b\"type\":\"ai\",\"content\":\" world\"\x7d\n"

/-- A `tool` record without a trailing newline, arriving as the residual
buffer at end of stream. -/
def residualToolLine : String :=
  "\x7b\"type\":\"tool\",\"content\":\"X\",\"tool_name\":\"t1\"\x7d"

/-- An `ai` record without a trailing newline, arriving as the residual
buffer at end of stream. -/
def residualAiLine : String :=
  "\x7b\"type\":\"ai\",\"content\":\"tail\"\x7d"

/-- A stream carrying two `session` records. -/
def twoSessionStream : String :=
  "\x7b\"type\":\"session\",\"content\":\"s1\"\x7d\n\x7b\"type\":\"session\",\"content\":\"s2\"\x7d\n"

/-- A single newline-terminated `ai` record. -/
def oneAiLine : String := "\x7b\"type\":\"ai\",\"content\":\"E\"\x7d\n"

/-- A stream with a malformed line between two valid `ai` records. -/
def malformedMidStream : String :=
  "\x7b\"type\":\"ai\",\"content\":\"A\"\x7d\nnot-json\n\x7b\"type\":\"ai\",\"content\":\"B\"\x7d\n"

/-- A component state mid-send: a user message and a partially streamed
assistant message, accumulator `par`, guard and loading set. -/
def stMidSend : ChatState :=
  ⟨[⟨.user, "q", 0, none⟩, ⟨.ai, "par", 0, some []⟩], "", none, true, true, "par"⟩

/-- One stored conversation row used by the loadSession counterexample. -/
def storedRow : ConversationItem :=
  ⟨"s9", "u", "old", some 3⟩

/-- A component state whose single-flight guard is set. -/
def stBusy : ChatState :=
  ⟨[], "x", none, false, true, "b"⟩

/-- The state reached from `chatInit` by the synchronous prefix of
`handleSend`: guard set, user message and empty assistant placeholder
pushed. -/
def chatBegun : ChatState :=
  ⟨[⟨.user, "hi", 0, none⟩, ⟨.ai, "", 0, some []⟩], "", none, true, true, ""⟩

/- ## Lemmas: line framing is chunking-invariant -/

/-- Glue for concatenation: the last part of the left split merges with the
first part of the right split. -/
def mergeHead (x : List Char) : List (List Char) → List (List Char)
  | [] => [x]
  | y :: ys => (x ++ y) :: ys

theorem splitNl_ne_nil (l : List Char) : splitNl l ≠ [] := by
  match l with
  | [] => simp [splitNl]
  | c :: cs =>
    by_cases h : c = '\n'
    · simp [splitNl, h]
    · simp only [splitNl, if_neg h]
      cases splitNl cs <;> simp

theorem mergeHead_ne_nil (x : List Char) (l : List (List Char)) :
    mergeHead x l ≠ [] := by
  cases l <;> simp [mergeHead]

theorem not_mem_splitNl (l : List Char) :
    ∀ p ∈ splitNl l, '\n' ∉ p := by
  induction l with
  | nil => simp [splitNl]
  | cons c cs ih =>
    by_cases h : c = '\n'
    · simp only [splitNl, if_pos h]
      intro p hp
      rcases List.mem_cons.mp hp with rfl | hp
      · simp
      · exact ih p hp
    · simp only [splitNl, if_neg h]
      cases hs : splitNl cs with
      | nil => exact absurd hs (splitNl_ne_nil cs)
      | cons q qs =>
        intro p hp
        rcases List.mem_cons.mp hp with rfl | hp
        · intro hmem
          rcases List.mem_cons.mp hmem with rfl | hmem
          · exact h rfl
          · exact ih q (hs ▸ List.mem_cons_self q qs) hmem
        · exact ih p (hs ▸ List.mem_cons_of_mem q hp)

theorem splitNl_of_no_nl (l : List Char) (h : '\n' ∉ l) : splitNl l = [l] := by
  induction l with
  | nil => rfl
  | cons c cs ih =>
    have hc : c ≠ '\n' := fun hc => h (hc ▸ List.mem_cons_self c cs)
    have hcs : '\n' ∉ cs := fun hm => h (List.mem_cons_of_mem c hm)
    simp only [splitNl, if_neg hc, ih hcs]

theorem getLastD_mem {α : Type} (l : List α) (d : α) (h : l ≠ []) :
    l.getLastD d ∈ l := by
  cases l with
  | nil => exact absurd rfl h
  | cons a as =>
    rw [List.getLastD_cons]
    exact List.getLastD_mem_cons as a

theorem getLastD_append_of_ne_nil {α : Type} (l1 l2 : List α) (d : α) (h : l2 ≠ []) :
    (l1 ++ l2).getLastD d = l2.getLastD d := by
  rw [List.getLastD_eq_getLast?, List.getLastD_eq_getLast?, List.getLast?_append]
  cases hm : l2.getLast? with
  | none => exact absurd (List.getLast?_eq_none_iff.mp hm) h
  | some y => rfl

theorem splitNl_append (a b : List Char) :
    splitNl (a ++ b) =
      (splitNl a).dropLast ++ mergeHead ((splitNl a).getLastD []) (splitNl b) := by
  induction a with
  | nil =>
    cases hb : splitNl b with
    | nil => exact absurd hb (splitNl_ne_nil b)
    | cons y ys => simp [splitNl, mergeHead, hb]
  | cons c cs ih =>
    by_cases h : c = '\n'
    · subst h
      simp only [List.cons_append, splitNl, if_pos rfl, List.append_eq]
      cases hs : splitNl cs with
      | nil => exact absurd hs (splitNl_ne_nil cs)
      | cons p ps =>
        rw [ih, hs]
        simp [List.getLastD_cons]
    · simp only [List.cons_append, splitNl, if_neg h, List.append_eq]
      cases hs : splitNl cs with
      | nil => exact absurd hs (splitNl_ne_nil cs)
      | cons p ps =>
        rw [ih, hs]
        cases ps with
        | nil =>
          simp only [List.dropLast_single, List.nil_append, List.getLastD_cons,
            List.getLastD_nil]
          cases hb : splitNl b with
          | nil => exact absurd hb (splitNl_ne_nil b)
          | cons q qs => simp [mergeHead]
        | cons r rs =>
          simp [List.dropLast_cons₂, List.getLastD_cons]

theorem feedLines_append (st : List (List Char) × List Char) (t u : List Char) :
    feedLines (feedLines st t) u = feedLines st (t ++ u) := by
  obtain ⟨em, buf⟩ := st
  simp only [feedLines]
  have hassoc : buf ++ (t ++ u) = (buf ++ t) ++ u := by simp
  rw [hassoc, splitNl_append (buf ++ t) u]
  set S1 := splitNl (buf ++ t) with hS1
  have hlast : '\n' ∉ S1.getLastD [] :=
    not_mem_splitNl (buf ++ t) _ (getLastD_mem _ _ (splitNl_ne_nil _))
  rw [splitNl_append (S1.getLastD []) u, splitNl_of_no_nl _ hlast]
  simp only [List.dropLast_single, List.nil_append, List.getLastD_cons,
    List.getLastD_nil]
  have hne := mergeHead_ne_nil (S1.getLastD []) (splitNl u)
  have hdp := List.dropLast_append_of_ne_nil S1.dropLast hne
  have hgl := getLastD_append_of_ne_nil S1.dropLast
    (mergeHead (S1.getLastD []) (splitNl u)) ([] : List Char) hne
  rw [hdp, hgl, List.append_assoc]

theorem decodeChunk_shift (bs : List Nat) (s : DecState) (out : List Char) :
    bs.foldl (fun p b =>
      let q := decodeByte p.1 b
      (q.1, p.2 ++ q.2)) (s, out)
      = ((decodeChunk s bs).1, out ++ (decodeChunk s bs).2) := by
  induction bs generalizing s out with
  | nil => simp [decodeChunk]
  | cons b bs ih =>
    simp only [decodeChunk, List.foldl_cons]
    rw [ih, ih]
    simp

theorem decodeChunk_append (s : DecState) (a b : List Nat) :
    decodeChunk s (a ++ b) =
      ((decodeChunk (decodeChunk s a).1 b).1,
        (decodeChunk s a).2 ++ (decodeChunk (decodeChunk s a).1 b).2) := by
  simp only [decodeChunk, List.foldl_append]
  rw [decodeChunk_shift a s []]
  rw [decodeChunk_shift b (decodeChunk s a).1 ([] ++ (decodeChunk s a).2)]
  simp [decodeChunk]

theorem feedLines_buf_no_nl (st : List (List Char) × List Char) (t : List Char) :
    '\n' ∉ (feedLines st t).2 :=
  not_mem_splitNl (st.2 ++ t) _ (getLastD_mem _ _ (splitNl_ne_nil _))

theorem feedLines_nil (st : List (List Char) × List Char) (h : '\n' ∉ st.2) :
    feedLines st [] = st := by
  obtain ⟨em, buf⟩ := st
  simp only [feedLines, List.append_nil]
  rw [splitNl_of_no_nl buf h]
  simp

/-- The read loop started from any reachable intermediate state processes
exactly the concatenation of the remaining bytes. -/
theorem framePipe_foldl (chunks : List (List Nat)) (d : DecState)
    (fr : List (List Char) × List Char) (hbuf : '\n' ∉ fr.2) :
    chunks.foldl (fun st chunk =>
        let q := decodeChunk st.1 chunk
        (q.1, feedLines st.2 q.2)) (d, fr)
      = ((decodeChunk d chunks.flatten).1,
          feedLines fr (decodeChunk d chunks.flatten).2) := by
  induction chunks generalizing d fr with
  | nil =>
    simp only [List.foldl_nil, List.flatten_nil, decodeChunk, List.foldl_nil]
    rw [feedLines_nil fr hbuf]
  | cons chunk chunks ih =>
    simp only [List.foldl_cons, List.flatten_cons]
    rw [ih (decodeChunk d chunk).1 (feedLines fr (decodeChunk d chunk).2)
      (feedLines_buf_no_nl fr _)]
    rw [decodeChunk_append d chunk chunks.flatten]
    rw [feedLines_append fr (decodeChunk d chunk).2 _]

/-- The emitted complete lines and the residual buffer of the read loop
depend only on the concatenation of the delivered bytes, not on the chunk
boundaries. -/
theorem framePipe_eq_flatten (chunks : List (List Nat)) :
    framePipe chunks =
      ((decodeChunk DecState.init chunks.flatten).1,
        feedLines ([], []) (decodeChunk DecState.init chunks.flatten).2) := by
  simp only [framePipe]
  exact framePipe_foldl chunks DecState.init ([], []) (by simp)

/- ## Shared helper lemmas -/

theorem runEvents_append (st : ChatState) (a b : List CbEvent) :
    runEvents st (a ++ b) = runEvents (runEvents st a) b :=
  List.foldl_append _ _ _ _

theorem dispatchObj_no_complete (obj : Json) :
    (dispatchObj obj).countP isComplete = 0 := by
  unfold dispatchObj
  split
  · split_ifs <;> simp [isComplete, List.countP, List.countP.go]
  · rfl

theorem dispatchLine_no_complete (line : List Char) :
    (dispatchLine line).countP isComplete = 0 := by
  unfold dispatchLine
  split
  · split
    · rfl
    · exact dispatchObj_no_complete _
  · rfl

theorem flatMap_dispatchLine_no_complete (lines : List (List Char)) :
    ((lines.flatMap dispatchLine).countP isComplete) = 0 := by
  induction lines with
  | nil => rfl
  | cons l ls ih =>
    simp only [List.flatMap_cons, List.countP_append, ih,
      dispatchLine_no_complete, Nat.add_zero]

theorem stepEvent_sessionId_of_not_session (st : ChatState) (e : CbEvent)
    (h : isSessionEvt e = false) : (stepEvent st e).sessionId = st.sessionId := by
  cases e <;> first | rfl | simp [isSessionEvt] at h

theorem runEvents_sessionId (st : ChatState) (evs : List CbEvent) :
    (runEvents st evs).sessionId = (sessionValues evs).getLastD st.sessionId := by
  induction evs generalizing st with
  | nil => rfl
  | cons e evs ih =>
    cases e with
    | sessionId c =>
      simp only [runEvents, List.foldl_cons, sessionValues, List.filterMap_cons]
      rw [← runEvents, ih, List.getLastD_cons]
      rfl
    | aiChunk c =>
      simp only [runEvents, List.foldl_cons, sessionValues, List.filterMap_cons]
      rw [← runEvents, ih]
      rfl
    | toolOutput c n =>
      simp only [runEvents, List.foldl_cons, sessionValues, List.filterMap_cons]
      rw [← runEvents, ih]
      rfl
    | complete =>
      simp only [runEvents, List.foldl_cons, sessionValues, List.filterMap_cons]
      rw [← runEvents, ih]
      rfl

theorem runEvents_aiBuffer (st : ChatState) (evs : List CbEvent)
    (h : evs.all (fun e => !isComplete e) = true) :
    (runEvents st evs).aiBuffer = st.aiBuffer ++ joinAll (evs.filterMap aiDeltaOf) := by
  induction evs generalizing st with
  | nil => simp [runEvents, joinAll]
  | cons e evs ih =>
    rw [List.all_cons, Bool.and_eq_true] at h
    cases e with
    | sessionId c =>
      simp only [runEvents, List.foldl_cons, List.filterMap_cons]
      rw [← runEvents, ih _ h.2]
      rfl
    | aiChunk c =>
      simp only [runEvents, List.foldl_cons, List.filterMap_cons]
      rw [← runEvents, ih _ h.2]
      simp [stepEvent, aiDeltaOf, joinAll, String.append_assoc]
    | toolOutput c n =>
      simp only [runEvents, List.foldl_cons, List.filterMap_cons]
      rw [← runEvents, ih _ h.2]
      rfl
    | complete => simp [isComplete] at h

theorem runEvents_dispatchLine_aiBuffer (st : ChatState) (line : List Char) :
    (runEvents st (dispatchLine line)).aiBuffer =
      st.aiBuffer ++ (lineAiDelta line).getD "" := by
  unfold dispatchLine lineAiDelta
  split
  · split
    · simp_all [runEvents]
    · unfold dispatchObj
      split
      · rename_i t heq
        split_ifs <;>
          simp_all [runEvents, stepEvent]
      · split <;> simp_all [runEvents]
  · simp [runEvents]

theorem countP_session_dispatchLine (line : List Char) :
    (dispatchLine line).countP isSessionEvt =
      (if isSessionLine line then 1 else 0) := by
  unfold dispatchLine isSessionLine
  split
  · split
    · simp_all
    · unfold dispatchObj
      split
      · rename_i t heq
        split_ifs <;>
          simp_all [isSessionEvt, List.countP, List.countP.go]
      · split <;> simp_all [List.countP, List.countP.go]
  · simp

theorem no_complete_all (lines : List (List Char)) :
    (lines.flatMap dispatchLine).all (fun e => !isComplete e) = true := by
  rw [List.all_eq_true]
  intro e he
  by_contra hc
  have h1 : (lines.flatMap dispatchLine).countP isComplete ≠ 0 := by
    have : isComplete e = true := by
      cases hb : isComplete e
      · rw [hb] at hc; simp at hc
      · rfl
    have := List.countP_pos_iff.mpr ⟨e, he, this⟩
    omega
  exact h1 (flatMap_dispatchLine_no_complete lines)

theorem runEvents_flatMap_aiBuffer (st : ChatState) (lines : List (List Char)) :
    (runEvents st (lines.flatMap dispatchLine)).aiBuffer =
      st.aiBuffer ++ joinAll (lines.filterMap lineAiDelta) := by
  induction lines generalizing st with
  | nil => simp [runEvents, joinAll]
  | cons l ls ih =>
    rw [List.flatMap_cons, runEvents_append, ih, runEvents_dispatchLine_aiBuffer]
    cases hd : lineAiDelta l with
    | none => simp [List.filterMap_cons, hd]
    | some d => simp [List.filterMap_cons, hd, joinAll, String.append_assoc]

theorem countP_session_flatMap (lines : List (List Char)) :
    (lines.flatMap dispatchLine).countP isSessionEvt =
      lines.countP isSessionLine := by
  induction lines with
  | nil => rfl
  | cons l ls ih =>
    rw [List.flatMap_cons, List.countP_append, ih, List.countP_cons,
      countP_session_dispatchLine]
    by_cases h : isSessionLine l = true
    · simp [h, Nat.add_comm]
    · simp [Bool.eq_false_iff.mpr h, (Bool.not_eq_true _).mp h]

/- ## C3: line framing is independent of the chunk boundaries -/

/-- C3: for every byte stream and every two slicings into chunks with the
same concatenation — including a boundary inside a multi-byte character or
inside a JSON record — the framing stage produces the identical sequence of
complete lines, and the streaming client therefore performs the identical
sequence of callback invocations. -/
theorem C3_framing_chunking_invariant (c1 c2 : List (List Nat)) (status : Nat)
    (aborted : Bool) (h : c1.flatten = c2.flatten) :
    framedLines c1 = framedLines c2 ∧
      sendChatMessage (.ok ⟨status, some ⟨c1, aborted⟩⟩) =
        sendChatMessage (.ok ⟨status, some ⟨c2, aborted⟩⟩) := by
  have hp : framePipe c1 = framePipe c2 := by
    rw [framePipe_eq_flatten, framePipe_eq_flatten, h]
  exact ⟨by simp [framedLines, hp], by simp [sendChatMessage, hp]⟩

/-- Witness for C3: the two-byte character U+00E9 split across a chunk
boundary versus delivered whole frames the same line. -/
theorem C3_witness :
    ([[0xC3], [0xA9, 0x0A]] : List (List Nat)).flatten =
        ([[0xC3, 0xA9], [0x0A]] : List (List Nat)).flatten ∧
      framedLines [[0xC3], [0xA9, 0x0A]] = framedLines [[0xC3, 0xA9], [0x0A]] :=
  ⟨by decide, (C3_framing_chunking_invariant [[0xC3], [0xA9, 0x0A]]
    [[0xC3, 0xA9], [0x0A]] 200 false (by decide)).1⟩

/- ## C7: single-flight guard -/

/-- C7: while a send is active (the guard or the loading flag is set) any
further `handleSend` call is rejected immediately as a silent no-op — the
state is returned unchanged and the transport is never consulted, so the
active send is unaffected — and a send can only begin from an idle state,
upon which it sets the guard, so at most one send is in flight at a time. -/
theorem C7_single_flight (st : ChatState) (now : Nat) :
    (st.processing = true ∨ st.loading = true →
      handleSendBegin st now = none ∧
        ∀ fr : Except Unit FetchResponse, handleSend st now fr = (st, .rejected)) ∧
    (∀ st1, handleSendBegin st now = some st1 →
      st.processing = false ∧ st.loading = false ∧
        st1.processing = true ∧ st1.loading = true) := by
  constructor
  · intro h
    have hnone : handleSendBegin st now = none := by
      unfold handleSendBegin
      rcases h with h | h <;> simp [h]
    refine ⟨hnone, fun fr => ?_⟩
    unfold handleSend
    rw [hnone]
  · intro st1 h1
    unfold handleSendBegin at h1
    by_cases hp : st.processing
    · simp [hp] at h1
    · by_cases hl : st.loading
      · simp [hl] at h1
      · simp only [hp, hl, Bool.or_false] at h1
        refine ⟨by simpa using hp, by simpa using hl, ?_, ?_⟩ <;>
        · split at h1
          · exact Option.noConfusion h1
          · injection h1 with h2
            rw [← h2]

/-- Witness for C7: with the guard set, a send attempt is rejected and the
state is untouched. -/
theorem C7_witness :
    stBusy.processing = true ∧
      handleSend stBusy 0 (Except.error ()) = (stBusy, .rejected) :=
  ⟨rfl, ((C7_single_flight stBusy 0).1 (Or.inl rfl)).2 (Except.error ())⟩

/- ## C1: transport failure handling -/

/-- Counterexample to C1: a non-success HTTP status (here 500) with a stream
body is not treated as a transport failure — the status is never examined —
so the body is processed as a normal stream and `onComplete` is invoked (the
send finishes, the error path is not taken), contrary to the claim that a
non-success response status invokes `onError` and not `onComplete`. -/
theorem C1_counterexample :
    (handleSend chatInit 0 (.ok ⟨500, some ⟨[utf8Encode oneAiLine], false⟩⟩)).2 =
        .finished ∧
      (sendChatMessage (.ok ⟨500, some ⟨[utf8Encode oneAiLine], false⟩⟩)).1 =
        [.aiChunk (some (.str "E")), .complete] :=
  ⟨by decide, rfl⟩

/-- C1 (amended): on a rejected fetch, a missing stream body, or a rejected
mid-stream read — the failure modes the code actually detects — the error
path (the catch block of `handleSend`; the `onError` handler object entry is
dead code never invoked by `sendChatMessage`) runs exactly once: `onComplete`
is never invoked during the failed send, `loading` and the single-flight
guard are cleared, and the messages, accumulated text and stored session id
are exactly what the events that arrived before the failure left, so partial
output is preserved.  A non-success response status is not a detected
failure mode (see the counterexample). -/
theorem C1_amended_transport_failure (st : ChatState) (now : Nat)
    (fr : Except Unit FetchResponse) (st1 : ChatState)
    (hbegin : handleSendBegin st now = some st1)
    (hthrew : (sendChatMessage fr).2 = .threw) :
    (handleSend st now fr).2 = .caught ∧
      (sendChatMessage fr).1.countP isComplete = 0 ∧
      (handleSend st now fr).1.loading = false ∧
      (handleSend st now fr).1.processing = false ∧
      (handleSend st now fr).1.messages =
        (runEvents st1 (sendChatMessage fr).1).messages ∧
      (handleSend st now fr).1.aiBuffer =
        (runEvents st1 (sendChatMessage fr).1).aiBuffer ∧
      (handleSend st now fr).1.sessionId =
        (runEvents st1 (sendChatMessage fr).1).sessionId := by
  have hcount : (sendChatMessage fr).1.countP isComplete = 0 := by
    match fr with
    | .error e => rfl
    | .ok resp =>
      match hb : resp.body with
      | none => simp [sendChatMessage, hb]
      | some body =>
        by_cases ha : body.aborted
        · simp [sendChatMessage, hb, ha, flatMap_dispatchLine_no_complete]
        · exfalso
          have : (sendChatMessage (.ok resp)).2 = .completed := by
            simp [sendChatMessage, hb, ha]
          rw [this] at hthrew
          exact SendOutcome.noConfusion hthrew
  have hmain : handleSend st now fr =
      ({ runEvents st1 (sendChatMessage fr).1 with
          loading := false, processing := false }, .caught) := by
    unfold handleSend
    rw [hbegin]
    rcases hsr : sendChatMessage fr with ⟨evs, outcome⟩
    rw [hsr] at hthrew
    simp only at hthrew
    rw [hthrew]
  rw [hmain]
  exact ⟨rfl, hcount, rfl, rfl, rfl, rfl, rfl⟩

/-- Witness for C1 (amended), at a rejected fetch. -/
theorem C1_witness :
    handleSendBegin chatInit 0 = some chatBegun ∧
      (sendChatMessage (Except.error ())).2 = .threw ∧
      (handleSend chatInit 0 (Except.error ())).2 = .caught ∧
      (handleSend chatInit 0 (Except.error ())).1.processing = false :=
  ⟨rfl, rfl,
    (C1_amended_transport_failure chatInit 0 (Except.error ()) chatBegun rfl rfl).1,
    (C1_amended_transport_failure chatInit 0 (Except.error ()) chatBegun rfl rfl).2.2.2.1⟩

/- ## C2: stale streams after discarding the transcript -/

theorem sessionMessages_getLast? (convs : List ConversationItem)
    (conv : ConversationItem) (now : Nat) (h : convs.getLast? = some conv) :
    (sessionMessages convs now).getLast? =
      some ⟨.ai, conv.ai_message, now, some []⟩ := by
  induction convs with
  | nil => exact Option.noConfusion h
  | cons c rest ih =>
    cases hr : rest with
    | nil =>
      subst hr
      simp only [List.getLast?_singleton] at h
      injection h with h
      subst h
      rfl
    | cons d ds =>
      subst hr
      have hstep : sessionMessages (c :: d :: ds) now =
          [⟨.user, c.user_message, now, none⟩,
            ⟨.ai, c.ai_message, now, some []⟩] ++ sessionMessages (d :: ds) now := rfl
      have h2 : (d :: ds : List ConversationItem).getLast? = some conv := by
        rw [← List.getLast?_cons_cons (a := c)]
        exact h
      rw [hstep, List.getLast?_append, ih h2]
      rfl

/-- Counterexample to C2: switching to a stored session while a stream is in
flight does not make the stale stream a no-op — a stale text-delta
overwrites the content of the last loaded assistant message (the loaded
`old` becomes `parX`: the stale accumulator extended by the stale chunk). -/
theorem C2_counterexample :
    (stepEvent (loadSession stMidSend "s9" [storedRow] 9)
        (.aiChunk (some (.str "X")))).messages =
      [⟨.user, "u", 9, none⟩, ⟨.ai, "parX", 9, some []⟩] ∧
    (loadSession stMidSend "s9" [storedRow] 9).messages =
      [⟨.user, "u", 9, none⟩, ⟨.ai, "old", 9, some []⟩] ∧
    (stepEvent (loadSession stMidSend "s9" [storedRow] 9)
        (.aiChunk (some (.str "X")))).messages ≠
      (loadSession stMidSend "s9" [storedRow] 9).messages := by
  have h1 : (stepEvent (loadSession stMidSend "s9" [storedRow] 9)
      (.aiChunk (some (.str "X")))).messages =
      [⟨.user, "u", 9, none⟩, ⟨.ai, "parX", 9, some []⟩] := by
    simp [stepEvent, jsOptToString, jsToString, loadSession, sessionMessages,
      setLastContent, stMidSend, storedRow]
  have h2 : (loadSession stMidSend "s9" [storedRow] 9).messages =
      [⟨.user, "u", 9, none⟩, ⟨.ai, "old", 9, some []⟩] := rfl
  refine ⟨h1, h2, ?_⟩
  rw [h1, h2]
  intro h
  have h4 := congrArg (List.map Message.content) h
  exact absurd h4 (by decide)

/-- C2 (amended): a stale stream raises no exception (every handler step is
a total state update), and after `startNew` stale text-delta and tool events
leave the cleared message list unchanged; but the claimed full no-op fails:
a stale text-delta still overwrites the shared accumulator, a stale
`onComplete` still clears `loading`, the guard and the accumulator, and
after `loadSession` a stale text-delta overwrites the content of the last
loaded assistant message with the stale accumulator value. -/
theorem C2_amended_stale_stream (st : ChatState) (c : Option Json)
    (name : Json) (sid : String) (convs : List ConversationItem) (now : Nat)
    (conv : ConversationItem) (hne : convs.getLast? = some conv) :
    (stepEvent (startNew st) (.aiChunk c)).messages = [] ∧
      (stepEvent (startNew st) (.aiChunk c)).aiBuffer = jsOptToString c ∧
      (stepEvent (startNew st) (.toolOutput c name)).messages = [] ∧
      (stepEvent (startNew st) .complete).loading = false ∧
      ((stepEvent (loadSession st sid convs now) (.aiChunk c)).messages.getLast?).map
          Message.content = some (st.aiBuffer ++ jsOptToString c) := by
  refine ⟨rfl, by simp [stepEvent, startNew, setLastContent], rfl, rfl, ?_⟩
  have hlast := sessionMessages_getLast? convs conv now hne
  simp only [stepEvent, loadSession, setLastContent, hlast]
  simp [List.getLast?_concat]

/-- Witness for C2 (amended). -/
theorem C2_witness :
    ([storedRow].getLast? = some storedRow) ∧
      ((stepEvent (loadSession stMidSend "s9" [storedRow] 9)
          (.aiChunk (some (.str "X")))).messages.getLast?).map Message.content =
        some "parX" :=
  ⟨rfl, ((C2_amended_stale_stream stMidSend (some (.str "X")) (.str "t") "s9"
    [storedRow] 9 storedRow rfl).2.2.2.2).trans
      (by simp [stMidSend, jsOptToString, jsToString])⟩

/- ## C4: tool-call anchors -/

/-- C4: whenever a tool-result callback is processed, the ToolCall it records
(when the last message is an assistant message) carries as anchor exactly
the length of the accumulated text at that instant, and that accumulator is
the initial text extended by every text-delta dispatched earlier (so each
earlier delta is counted in the anchor); in the two-chunk scenario of the
spec the final text is `Hello world`, exactly one ToolCall `t1` with anchor
5 is recorded, and the interleaved rendering is the text `Hello`, the tool
card, then the text ` world`. -/
theorem C4_anchor_current_length (st0 : ChatState) (evs : List CbEvent)
    (out : Option Json) (name : Json)
    (h : evs.all (fun e => !isComplete e) = true) :
    (runEvents st0 (evs ++ [.toolOutput out name])).messages =
        pushToolCall (runEvents st0 evs).messages
          ⟨name, out, (runEvents st0 evs).aiBuffer.length⟩ ∧
      (runEvents st0 evs).aiBuffer =
        st0.aiBuffer ++ joinAll (evs.filterMap aiDeltaOf) ∧
      (handleSend chatInit 0
          (.ok ⟨200, some ⟨[utf8Encode scChunk1, utf8Encode scChunk2], false⟩⟩)).1.messages =
        [⟨.user, "hi", 0, none⟩,
          ⟨.ai, "Hello world", 0,
            some [⟨.str "t1", some (.str "\x7b\"x\":1\x7d"), 5⟩]⟩] ∧
      interleave "Hello world" [⟨.str "t1", some (.str "\x7b\"x\":1\x7d"), 5⟩] =
        [.text "Hello",
          .toolCard (.str "t1") (some (.str "\x7b\"x\":1\x7d")),
          .text " world"] := by
  refine ⟨?_, runEvents_aiBuffer st0 evs h, ?_, rfl⟩
  · rw [runEvents_append]
    rfl
  · have hev : (sendChatMessage
        (.ok ⟨200, some ⟨[utf8Encode scChunk1, utf8Encode scChunk2], false⟩⟩)) =
        ([.aiChunk (some (.str "Hello")),
          .toolOutput (some (.str "\x7b\"x\":1\x7d")) (.str "t1"),
          .aiChunk (some (.str " world")), .complete], .completed) := rfl
    have hbegin : handleSendBegin chatInit 0 = some chatBegun := rfl
    unfold handleSend
    rw [hbegin, hev]
    simp only [runEvents, List.foldl_cons, List.foldl_nil]
    simp [stepEvent, jsOptToString, jsToString, setLastContent, pushToolCall, chatBegun]
    decide

/-- Witness for C4. -/
theorem C4_witness :
    ([CbEvent.aiChunk (some (.str "ab"))].all (fun e => !isComplete e) = true) ∧
      (runEvents chatInit
          ([.aiChunk (some (.str "ab"))] ++ [.toolOutput none (.str "t")])).messages =
        pushToolCall (runEvents chatInit [.aiChunk (some (.str "ab"))]).messages
          ⟨.str "t", none,
            (runEvents chatInit [.aiChunk (some (.str "ab"))]).aiBuffer.length⟩ :=
  ⟨rfl, (C4_anchor_current_length chatInit [.aiChunk (some (.str "ab"))]
    none (.str "t") rfl).1⟩

/- ## Stable sorting lemmas (shared by the interleaver and the index) -/

theorem filter_orderedInsert {α : Type} (r : α → α → Prop) [DecidableRel r]
    (p : α → Bool) (hcompat : ∀ x y, p x = true → ¬ r x y → p y = false)
    (x : α) (l : List α) :
    (l.orderedInsert r x).filter p = (x :: l).filter p := by
  rw [List.orderedInsert_eq_take_drop]
  rw [List.filter_append, List.filter_cons, List.filter_cons]
  by_cases hx : p x = true
  · have htake : (l.takeWhile (fun b => decide ¬r x b)).filter p = [] := by
      rw [List.filter_eq_nil_iff]
      intro a ha
      have := List.mem_takeWhile_imp ha
      rw [decide_eq_true_iff] at this
      rw [hcompat x a hx this]
      simp
    rw [htake, hx]
    simp only [if_pos rfl, List.nil_append]
    have : l.filter p =
        (l.takeWhile (fun b => decide ¬r x b)).filter p ++
          (l.dropWhile (fun b => decide ¬r x b)).filter p := by
      rw [← List.filter_append, List.takeWhile_append_dropWhile]
    rw [this, htake, List.nil_append]
  · have hx2 : p x = false := by
      cases hp : p x
      · rfl
      · exact absurd hp hx
    rw [hx2]
    simp only [Bool.false_eq_true, if_false]
    have : l.filter p =
        (l.takeWhile (fun b => decide ¬r x b)).filter p ++
          (l.dropWhile (fun b => decide ¬r x b)).filter p := by
      rw [← List.filter_append, List.takeWhile_append_dropWhile]
    rw [this]

theorem filter_insertionSort {α : Type} (r : α → α → Prop) [DecidableRel r]
    (p : α → Bool) (hcompat : ∀ x y, p x = true → ¬ r x y → p y = false)
    (l : List α) :
    (l.insertionSort r).filter p = l.filter p := by
  induction l with
  | nil => rfl
  | cons x l ih =>
    rw [List.insertionSort]
    rw [filter_orderedInsert r p hcompat, List.filter_cons, List.filter_cons, ih]

/- ## C5: the segment interleaver -/

theorem toolSegs_append (a b : List Segment) :
    toolSegs (a ++ b) = toolSegs a ++ toolSegs b := by
  simp [toolSegs]

theorem textSegs_append (a b : List Segment) :
    textSegs (a ++ b) = textSegs a ++ textSegs b := by
  simp [textSegs]

theorem joinAll_append (a b : List String) :
    joinAll (a ++ b) = joinAll a ++ joinAll b := by
  induction a with
  | nil =>
    show joinAll b = "" ++ joinAll b
    rw [String.empty_append]
  | cons x xs ih =>
    show x ++ joinAll (xs ++ b) = (x ++ joinAll xs) ++ joinAll b
    rw [ih, String.append_assoc]

theorem toolSegs_interleaveGo (content : String) (l : List ToolCallRec)
    (last : Nat) :
    toolSegs (interleaveGo content l last) =
      l.map (fun c => (c.toolName, c.toolOutput)) := by
  induction l generalizing last with
  | nil =>
    have hgo : interleaveGo content [] last =
        (if last < content.length then
          (if jsTrimNonempty (jsSubstringFrom content last).data
            then [Segment.text (jsSubstringFrom content last)] else [])
          else []) := rfl
    rw [hgo]
    split_ifs <;> rfl
  | cons call rest ih =>
    have hgo : interleaveGo content (call :: rest) last =
        (if last < call.insertPosition then
          (if jsTrimNonempty (jsSubstring content last call.insertPosition).data
            then [Segment.text (jsSubstring content last call.insertPosition)]
            else [])
          else []) ++
          Segment.toolCard call.toolName call.toolOutput ::
            interleaveGo content rest call.insertPosition := rfl
    rw [hgo, toolSegs_append]
    have hpre : toolSegs (if last < call.insertPosition then
        (if jsTrimNonempty (jsSubstring content last call.insertPosition).data
          then [Segment.text (jsSubstring content last call.insertPosition)]
          else [])
        else []) = [] := by
      split_ifs <;> rfl
    rw [hpre, List.nil_append, List.map_cons]
    show (call.toolName, call.toolOutput) ::
        toolSegs (interleaveGo content rest call.insertPosition) = _
    rw [ih]

theorem textConcat_interleaveGo (content : String) (l : List ToolCallRec)
    (last : Nat) :
    joinAll (textSegs (interleaveGo content l last)) =
      specTextConcat content l last := by
  induction l generalizing last with
  | nil =>
    have hgo : interleaveGo content [] last =
        (if last < content.length then
          (if jsTrimNonempty (jsSubstringFrom content last).data
            then [Segment.text (jsSubstringFrom content last)] else [])
          else []) := rfl
    have hspec : specTextConcat content [] last =
        elidedPiece content last content.length := rfl
    rw [hgo, hspec]
    unfold elidedPiece jsSubstringFrom
    by_cases h1 : last < content.length
    · rw [if_pos h1, if_pos h1]
      by_cases h2 : jsTrimNonempty (jsSubstring content last content.length).data = true
      · rw [if_pos h2, if_pos h2]
        show jsSubstring content last content.length ++ "" = _
        rw [String.append_empty]
      · rw [if_neg h2, if_neg h2]
        rfl
    · rw [if_neg h1, if_neg h1]
      rfl
  | cons call rest ih =>
    have hgo : interleaveGo content (call :: rest) last =
        (if last < call.insertPosition then
          (if jsTrimNonempty (jsSubstring content last call.insertPosition).data
            then [Segment.text (jsSubstring content last call.insertPosition)]
            else [])
          else []) ++
          Segment.toolCard call.toolName call.toolOutput ::
            interleaveGo content rest call.insertPosition := rfl
    have hspec : specTextConcat content (call :: rest) last =
        elidedPiece content last call.insertPosition ++
          specTextConcat content rest call.insertPosition := rfl
    rw [hgo, hspec, textSegs_append, joinAll_append]
    have htail : textSegs (Segment.toolCard call.toolName call.toolOutput ::
        interleaveGo content rest call.insertPosition) =
        textSegs (interleaveGo content rest call.insertPosition) := rfl
    rw [htail, ih]
    congr 1
    unfold elidedPiece
    by_cases h1 : last < call.insertPosition
    · rw [if_pos h1, if_pos h1]
      by_cases h2 : jsTrimNonempty (jsSubstring content last call.insertPosition).data = true
      · rw [if_pos h2, if_pos h2]
        show jsSubstring content last call.insertPosition ++ "" = _
        rw [String.append_empty]
      · rw [if_neg h2, if_neg h2]
        rfl
    · rw [if_neg h1, if_neg h1]
      rfl

/-- Counterexample to C5: with an empty tool-call list the code returns the
whole text as one segment with no whitespace test, so for the whitespace-only
text the concatenation of text segments is the text itself, not the
whitespace-elided reconstruction (which is empty): the elision conjunct of
the claim fails on this input. -/
theorem C5_counterexample :
    interleave " " [] = [Segment.text " "] ∧
      joinAll (textSegs (interleave " " [])) = " " ∧
      specTextConcat " " [] 0 = "" ∧
      (" " : String) ≠ "" := by
  exact ⟨rfl, rfl, rfl, by decide⟩

/-- C5 (amended): `interleave` is idempotent (definitionally, being pure);
its tool segments are exactly the anchor-sorted tool calls, sorted stably —
ascending anchors, ties keeping arrival order (the filter at every anchor
value is unchanged); and the concatenation of its text segments is the
whitespace-elided reconstruction of the original text whenever at least one
tool call exists, while with no tool calls the whole text is returned as a
single segment with no whitespace elision (the corrected part of the
claim). -/
theorem C5_interleave_properties (content : String) (calls : List ToolCallRec) :
    interleave content calls = interleave content calls ∧
      toolSegs (interleave content calls) =
        (calls.insertionSort (fun a b => a.insertPosition ≤ b.insertPosition)).map
          (fun c => (c.toolName, c.toolOutput)) ∧
      List.Pairwise (fun a b => a.insertPosition ≤ b.insertPosition)
        (calls.insertionSort (fun a b => a.insertPosition ≤ b.insertPosition)) ∧
      (∀ k, (calls.insertionSort
            (fun a b => a.insertPosition ≤ b.insertPosition)).filter
          (fun c => c.insertPosition = k) =
        calls.filter (fun c => c.insertPosition = k)) ∧
      joinAll (textSegs (interleave content calls)) =
        (if calls.isEmpty then content
          else specTextConcat content
            (calls.insertionSort (fun a b => a.insertPosition ≤ b.insertPosition)) 0) := by
  haveI : IsTotal ToolCallRec (fun a b => a.insertPosition ≤ b.insertPosition) :=
    ⟨fun a b => Nat.le_total _ _⟩
  haveI : IsTrans ToolCallRec (fun a b => a.insertPosition ≤ b.insertPosition) :=
    ⟨fun _ _ _ hab hbc => Nat.le_trans hab hbc⟩
  refine ⟨rfl, ?_, List.sorted_insertionSort _ _, ?_, ?_⟩
  · unfold interleave
    cases he : calls.isEmpty
    · simp only [Bool.false_eq_true, if_false]
      rw [toolSegs_interleaveGo]
    · have : calls = [] := List.isEmpty_iff.mp he
      subst this
      rfl
  · intro k
    refine filter_insertionSort _ _ ?_ calls
    intro x y hx hnr
    have hk : x.insertPosition = k := by simpa using hx
    have : y.insertPosition ≠ k := by omega
    simpa using this
  · unfold interleave
    cases he : calls.isEmpty
    · simp only [Bool.false_eq_true, if_false]
      rw [textConcat_interleaveGo]
    · have : calls = [] := List.isEmpty_iff.mp he
      subst this
      simp [joinAll, textSegs]

/- ## C6: per-line decode failures are absorbed -/

/-- C6: a line that fails to decode is silently dropped (no error reaches
the caller: the dispatch of such a line is the empty event list), removing a
malformed line from a stream leaves the dispatched event sequence of the
other lines unchanged and in order, a decoded object with an unrecognised
type tag is a no-op, the accumulated text after any line sequence is the
initial text extended by exactly the deltas of the lines that decode to
`ai` records, and in the spec scenario a `not-json` line between two valid
`ai` lines yields final text `AB`. -/
theorem C6_decode_failure_recovery (line bad : List Char)
    (pre post : List (List Char)) (obj : Json) (st : ChatState)
    (lines : List (List Char))
    (h1 : jsonParse line = none) (h2 : jsonParse bad = none)
    (h3 : recognizedTag obj = false) :
    dispatchLine line = [] ∧
      (pre ++ bad :: post).flatMap dispatchLine =
        (pre ++ post).flatMap dispatchLine ∧
      dispatchObj obj = [] ∧
      (runEvents st (lines.flatMap dispatchLine)).aiBuffer =
        st.aiBuffer ++ joinAll (lines.filterMap lineAiDelta) ∧
      (handleSend chatInit 0
          (.ok ⟨200, some ⟨[utf8Encode malformedMidStream], false⟩⟩)).1.messages =
        [⟨.user, "hi", 0, none⟩, ⟨.ai, "AB", 0, some []⟩] := by
  have hdl : ∀ l : List Char, jsonParse l = none → dispatchLine l = [] := by
    intro l hl
    unfold dispatchLine
    split
    · rw [hl]
    · rfl
  refine ⟨hdl line h1, ?_, ?_, runEvents_flatMap_aiBuffer st lines, ?_⟩
  · rw [List.flatMap_append, List.flatMap_append, List.flatMap_cons,
      hdl bad h2, List.nil_append]
  · unfold dispatchObj
    unfold recognizedTag at h3
    split
    · rename_i t heq
      rw [heq] at h3
      simp only [Bool.or_eq_false_iff, decide_eq_false_iff_not] at h3
      obtain ⟨⟨⟨⟨hs, ha⟩, hts⟩, ht⟩, htd⟩ := h3
      rw [if_neg hs, if_neg ha, if_neg hts, if_neg ht, if_neg htd]
    · rfl
  · have hev : (sendChatMessage
        (.ok ⟨200, some ⟨[utf8Encode malformedMidStream], false⟩⟩)) =
        ([.aiChunk (some (.str "A")), .aiChunk (some (.str "B")), .complete],
          .completed) := rfl
    have hbegin : handleSendBegin chatInit 0 = some chatBegun := rfl
    unfold handleSend
    rw [hbegin, hev]
    simp only [runEvents, List.foldl_cons, List.foldl_nil]
    simp [stepEvent, jsOptToString, jsToString, setLastContent, chatBegun]

/-- Witness for C6, at the `not-json` line and an unrecognised tag. -/
theorem C6_witness :
    jsonParse ("not-json".data) = none ∧
      recognizedTag (Json.obj [("type", Json.str "weird")]) = false ∧
      dispatchLine ("not-json".data) = [] ∧
      dispatchObj (Json.obj [("type", Json.str "weird")]) = [] :=
  ⟨rfl, rfl,
    (C6_decode_failure_recovery ("not-json".data) ("not-json".data) [] []
      (Json.obj [("type", Json.str "weird")]) chatInit [] rfl rfl rfl).1,
    (C6_decode_failure_recovery ("not-json".data) ("not-json".data) [] []
      (Json.obj [("type", Json.str "weird")]) chatInit [] rfl rfl rfl).2.2.1⟩

/- ## C8: end-of-stream residual handling -/

theorem residualEvents_no_complete (buf : List Char) :
    (residualEvents buf).countP isComplete = 0 := by
  unfold residualEvents
  split
  · split
    · rfl
    · split
      · split_ifs <;> simp [isComplete, List.countP, List.countP.go]
      · rfl
  · rfl

/-- Counterexample to C8: a residual `tool` record without a trailing
newline parses fine but is not dispatched according to its kind — the
residual handling only recognises `ai` records, so `onToolResult` is never
invoked and the only callback of the whole stream is `onComplete`. -/
theorem C8_counterexample :
    (sendChatMessage (.ok ⟨200, some ⟨[utf8Encode residualToolLine], false⟩⟩)).1 =
        [.complete] ∧
      residualBuf [utf8Encode residualToolLine] = residualToolLine.data ∧
      jsonParse residualToolLine.data =
        some (Json.obj [("type", .str "tool"), ("content", .str "X"),
          ("tool_name", .str "t1")]) :=
  ⟨rfl, rfl, rfl⟩

/-- C8 (amended): on a normally ending stream the send completes,
`onComplete` is invoked exactly once and as the last callback, and the
single-flight guard and `loading` are cleared; the non-empty residual buffer
is parsed best-effort, but only an `ai`-typed residual record is dispatched
(as a text delta) — a residual record of any other kind, such as a tool
record, is silently ignored rather than dispatched according to its event
kind. -/
theorem C8_amended_residual (chunks : List (List Nat)) (status : Nat)
    (buf : List Char) (obj : Json) (t : String)
    (hparse : jsonParse buf = some obj) (htrim : jsTrimNonempty buf = true)
    (hty : obj.get "type" = some (.str t)) :
    (sendChatMessage (.ok ⟨status, some ⟨chunks, false⟩⟩)).2 = .completed ∧
      (sendChatMessage (.ok ⟨status, some ⟨chunks, false⟩⟩)).1.countP isComplete = 1 ∧
      (sendChatMessage (.ok ⟨status, some ⟨chunks, false⟩⟩)).1.getLast? =
        some .complete ∧
      residualEvents buf =
        (if t = "ai" then [.aiChunk (obj.get "content")] else []) ∧
      (∀ st now st1, handleSendBegin st now = some st1 →
        (handleSend st now (.ok ⟨status, some ⟨chunks, false⟩⟩)).1.processing = false ∧
          (handleSend st now (.ok ⟨status, some ⟨chunks, false⟩⟩)).1.loading = false) := by
  have hsend : sendChatMessage (.ok ⟨status, some ⟨chunks, false⟩⟩) =
      ((framePipe chunks).2.1.flatMap dispatchLine ++
        (residualEvents (framePipe chunks).2.2 ++ [.complete]), .completed) := by
    simp [sendChatMessage]
  refine ⟨rfl, ?_, ?_, ?_, ?_⟩
  · rw [hsend]
    simp only [List.countP_append, flatMap_dispatchLine_no_complete,
      residualEvents_no_complete]
    rfl
  · rw [hsend]
    simp [List.getLast?_append, Option.or]
  · unfold residualEvents
    rw [if_pos htrim, hparse]
    show (match obj.get "type" with
      | some (Json.str t) =>
        if t = "ai" then [CbEvent.aiChunk (obj.get "content")] else []
      | _ => []) = _
    rw [hty]
  · intro st now st1 hb
    unfold handleSend
    rw [hb, hsend]
    show (runEvents st1 _).processing = false ∧ (runEvents st1 _).loading = false
    rw [runEvents_append, runEvents_append]
    exact ⟨rfl, rfl⟩

/-- Witness for C8 (amended): an `ai` residual record is dispatched as a
text delta and the stream completes. -/
theorem C8_witness :
    jsonParse residualAiLine.data =
        some (Json.obj [("type", .str "ai"), ("content", .str "tail")]) ∧
      jsTrimNonempty residualAiLine.data = true ∧
      residualEvents residualAiLine.data = [.aiChunk (some (.str "tail"))] ∧
      (sendChatMessage (.ok ⟨200, some ⟨[utf8Encode residualAiLine], false⟩⟩)).1.getLast? =
        some .complete := by
  refine ⟨rfl, rfl, ?_, ?_⟩
  · have h := (C8_amended_residual [utf8Encode residualAiLine] 200
      residualAiLine.data
      (Json.obj [("type", .str "ai"), ("content", .str "tail")]) "ai"
      rfl rfl rfl).2.2.2.1
    rw [h]
    rfl
  · exact (C8_amended_residual [utf8Encode residualAiLine] 200
      residualAiLine.data
      (Json.obj [("type", .str "ai"), ("content", .str "tail")]) "ai"
      rfl rfl rfl).2.2.1

/- ## C9: session events -/

/-- Counterexample to C9: a stream with two `session` records invokes
`onSessionId` twice, not exactly once, and the stored session id is the
one of the last occurrence, not the first. -/
theorem C9_counterexample :
    (sendChatMessage (.ok ⟨200, some ⟨[utf8Encode twoSessionStream], false⟩⟩)).1 =
        [.sessionId (some (.str "s1")), .sessionId (some (.str "s2")), .complete] ∧
      (sendChatMessage (.ok ⟨200, some ⟨[utf8Encode twoSessionStream], false⟩⟩)).1.countP
          isSessionEvt = 2 ∧
      (runEvents chatBegun
          (sendChatMessage (.ok ⟨200, some ⟨[utf8Encode twoSessionStream], false⟩⟩)).1).sessionId =
        some (.str "s2") :=
  ⟨rfl, rfl, rfl⟩

/-- C9 (amended): `onSessionId` is invoked once per `session` record framed
from the stream — so exactly once only when the stream carries exactly one
such record — and the stored session id is the content of the last
occurrence (last write wins), the initial id when there is none. -/
theorem C9_amended_session_per_event (lines : List (List Char))
    (st : ChatState) (evs : List CbEvent) :
    (lines.flatMap dispatchLine).countP isSessionEvt =
        lines.countP isSessionLine ∧
      (runEvents st evs).sessionId = (sessionValues evs).getLastD st.sessionId :=
  ⟨countP_session_flatMap lines, runEvents_sessionId st evs⟩

/- ## C10: the conversation index -/

theorem filter_dedupeFirst (convs : List ConversationItem) (seen : List String)
    (sid : String) :
    (dedupeFirst seen convs).filter (fun c => c.session_id = sid) =
      (if sid ∈ seen then []
        else (convs.filter (fun c => c.session_id = sid)).take 1) := by
  induction convs generalizing seen with
  | nil => simp [dedupeFirst]
  | cons c rest ih =>
    unfold dedupeFirst
    by_cases hc : c.session_id ∈ seen
    · rw [if_pos hc, ih]
      by_cases hs : sid ∈ seen
      · rw [if_pos hs, if_pos hs]
      · rw [if_neg hs, if_neg hs, List.filter_cons]
        have : ¬ c.session_id = sid := fun h => hs (h ▸ hc)
        simp [this]
    · rw [if_neg hc, List.filter_cons, ih]
      by_cases heq : c.session_id = sid
      · subst heq
        rw [if_pos (by simp), if_pos (List.mem_cons_self _ _)]
        by_cases hs : c.session_id ∈ seen
        · exact absurd hs hc
        · rw [if_neg hs, List.filter_cons]
          simp
      · rw [if_neg (by simp [heq])]
        have hmem : sid ∈ c.session_id :: seen ↔ sid ∈ seen := by
          constructor
          · intro h
            rcases List.mem_cons.mp h with h | h
            · exact absurd h.symm heq
            · exact h
          · exact List.mem_cons_of_mem _
        by_cases hs : sid ∈ seen
        · rw [if_pos (hmem.mpr hs), if_pos hs]
        · rw [if_neg (fun h => hs (hmem.mp h)), if_neg hs, List.filter_cons]
          simp [heq]

/-- C10: `uniqueSessions` keeps, per session id, exactly the
first-encountered row of the input (the filter of the result at any id is
the first element of the input filtered at that id), returns the survivors
sorted by timestamp descending — a missing timestamp sorting as 0 — with
ties keeping the survivors' original relative order (the filter at any
timestamp value is order-preserving), and the spec example evaluates to
`[b: 10, a: 5]` with the second `a` discarded. -/
theorem C10_uniqueSessions_dedupe (convs : List ConversationItem) :
    (∀ sid, (uniqueSessions convs).filter (fun c => c.session_id = sid) =
        (convs.filter (fun c => c.session_id = sid)).take 1) ∧
      List.Pairwise (fun a b => timeOf b ≤ timeOf a) (uniqueSessions convs) ∧
      (∀ t, (uniqueSessions convs).filter (fun c => timeOf c = t) =
        (dedupeFirst [] convs).filter (fun c => timeOf c = t)) ∧
      timeOf ⟨"x", "u", "w", none⟩ = 0 ∧
      uniqueSessions [⟨"a", "ua", "wa", some 5⟩, ⟨"b", "ub", "wb", some 10⟩,
          ⟨"a", "ua2", "wa2", some 1⟩] =
        [⟨"b", "ub", "wb", some 10⟩, ⟨"a", "ua", "wa", some 5⟩] := by
  haveI : IsTotal ConversationItem (fun a b => timeOf b ≤ timeOf a) :=
    ⟨fun a b => Int.le_total (timeOf b) (timeOf a)⟩
  haveI : IsTrans ConversationItem (fun a b => timeOf b ≤ timeOf a) :=
    ⟨fun _ _ _ hab hbc => Int.le_trans hbc hab⟩
  refine ⟨?_, List.sorted_insertionSort _ _, ?_, rfl, by decide⟩
  · intro sid
    have hfd := filter_dedupeFirst convs [] sid
    rw [if_neg (List.not_mem_nil sid)] at hfd
    have hperm : ((uniqueSessions convs).filter (fun c => c.session_id = sid)).Perm
        ((dedupeFirst [] convs).filter (fun c => c.session_id = sid)) :=
      (List.perm_insertionSort _ _).filter _
    rw [hfd] at hperm
    cases hl : convs.filter (fun c => decide (c.session_id = sid)) with
    | nil =>
      rw [hl] at hperm
      simp only [List.take_nil] at hperm
      simpa using hperm.eq_nil
    | cons x t =>
      rw [hl] at hperm
      have hx : List.take 1 (x :: t) = [x] := rfl
      rw [hx] at hperm ⊢
      exact List.perm_singleton.mp hperm
  · intro t
    refine filter_insertionSort _ _ ?_ _
    intro x y hx hnr
    have hk : timeOf x = t := by simpa using hx
    have : timeOf y ≠ t := by omega
    simpa using this
